import Mathlib

/-!
Verification of the rate-limited promise queue
(`src/promise-queue-rate-limited.js`, variant `unnamed/part_000` for
comparison where noted).

The engine is embedded as an explicit state machine `Sys α ε`:
the fields of the JS `PromiseQueue` object are translated directly, and a
few ghost fields record what the host environment observes (current wall
clock, the number of live `setTimeout` timers, the trace of executed
entries and of promise settlements).  A task `function` is embedded as a
`TaskEntry`: its JS reference identity becomes a numeric `taskId`, and the
synchronous outcome of `task.call()` becomes an `Except ε α` (`ok` for a
returned value, `error` for a thrown one).  Wall-clock instants and the
millisecond interval are embedded as integers (`Date.now()` returns whole
milliseconds); the rate-to-interval division in the constructor, which needs
fractional values, is embedded separately over `ℚ` as `construct`.
-/

namespace PromiseQueue

/-- Decidable equality for `Except`, needed to evaluate trace equalities. -/
instance instDecEqExcept {ε α : Type} [DecidableEq ε] [DecidableEq α] :
    DecidableEq (Except ε α) := fun a b =>
  match a, b with
  | .ok x, .ok y =>
    if h : x = y then .isTrue (by rw [h]) else
      .isFalse (fun hc => h (by injection hc))
  | .ok _, .error _ => .isFalse (fun hc => Except.noConfusion hc)
  | .error _, .ok _ => .isFalse (fun hc => Except.noConfusion hc)
  | .error x, .error y =>
    if h : x = y then .isTrue (by rw [h]) else
      .isFalse (fun hc => h (by injection hc))

/-- One queued task item, the object `{task: task, resolve: resolve, reject: reject}`
built in `add`.  `entryId` is the ghost identity of the item (and of the
promise handed back to the caller), `taskId` is the reference identity of
the JS `task` function, and `run` is the synchronous outcome of
`task.call()`: `Except.ok v` when the call returns `v`, `Except.error e`
when it throws `e`. -/
structure TaskEntry (α ε : Type) where
  entryId : Nat
  taskId : Nat
  run : Except ε α
  deriving DecidableEq

/-- The mutable state of one `PromiseQueue` instance together with the host
ghost state.  JS fields: `tasks`, `isActive`, `jobIntervalMillis`,
`lastTaskTimestamp`, `currentTaskTimeoutId`.  Ghost fields: `now` is the
value `Date.now()` would return, `outstanding` counts the live (armed, not
yet fired or cancelled) host timers, `nextTimerId` and `nextEntryId` are
fresh-id counters, `executions` is the ordered trace of executed entry ids,
`settlements` the ordered trace of promise settlements (entry id with the
value the promise was resolved or rejected with), and `armedWait` is the
delay argument the outstanding timer was armed with (`none` when no timer
is outstanding). -/
structure Sys (α ε : Type) where
  tasks : List (TaskEntry α ε)
  isActive : Bool
  jobIntervalMillis : ℤ
  lastTaskTimestamp : Option ℤ
  currentTaskTimeoutId : Option Nat
  now : ℤ
  outstanding : Nat
  nextTimerId : Nat
  nextEntryId : Nat
  executions : List Nat
  settlements : List (Nat × Except ε α)
  armedWait : Option ℤ
  deriving DecidableEq

variable {α ε : Type}

/-- JS truthiness of the nullable number `lastTaskTimestamp`: the guard
`if (this.lastTaskTimestamp)` is false for `null` and for the number `0`. -/
def truthyTime : Option ℤ → Bool
  | none => false
  | some x => decide (x ≠ 0)

/-- JS truthiness of the nullable timer handle `currentTaskTimeoutId`
(the guard `if (this.currentTaskTimeoutId)` in `stop`); handle `0` would be
falsy, but the embedding allocates handles starting at 1 as Node does. -/
def truthyHandle : Option Nat → Bool
  | none => false
  | some n => decide (n ≠ 0)

/-- The delay argument that `updateTaskSchedule` passes to `scheduleNext`
(lines 78-88 of `src/promise-queue-rate-limited.js`): when
`this.lastTaskTimestamp` is truthy, `passedTime = Date.now() - lastTaskTimestamp`
is compared against the interval — strictly greater yields a full
`jobIntervalMillis` wait, otherwise `Math.max(0, jobIntervalMillis - passedTime)`;
a falsy timestamp yields `scheduleNext(0)`. -/
def computeWait (interval : ℤ) (lastTs : Option ℤ) (now : ℤ) : ℤ :=
  if truthyTime lastTs then
    let passedTime := now - lastTs.getD 0
    if passedTime > interval then interval
    else max 0 (interval - passedTime)
  else 0

/-- The inner closure `scheduleNext(timeoutMillisOverride)`: on an empty
queue it clears `currentTaskTimeoutId` and returns; otherwise it arms one
`setTimeout` (recorded by a fresh handle, one more outstanding host timer,
and the armed delay). -/
def scheduleNext (s : Sys α ε) (wait : ℤ) : Sys α ε :=
  if s.tasks.isEmpty then
    { s with currentTaskTimeoutId := none, armedWait := none }
  else
    { s with currentTaskTimeoutId := some (s.nextTimerId + 1)
             nextTimerId := s.nextTimerId + 1
             outstanding := s.outstanding + 1
             armedWait := some wait }

/-- The inner closure `processNextTask()`: `tasks.shift()` guarded by
`if (nextTaskItem)`; the task of the shifted item is called and its promise is
resolved with the returned value or rejected with the thrown value
(`try { ... resolve(result) } catch (e) { reject(e) }`). -/
def processNextTask (s : Sys α ε) : Sys α ε :=
  match s.tasks with
  | [] => s
  | e :: rest =>
    { s with tasks := rest
             executions := s.executions ++ [e.entryId]
             settlements := s.settlements ++ [(e.entryId, e.run)] }

/-- The body of `PromiseQueue.prototype.updateTaskSchedule`: return on an
empty or stopped queue; when no timer handle is set, arm `scheduleNext`
with the computed delay; when a handle is set, do nothing. -/
def updateTaskSchedule (s : Sys α ε) : Sys α ε :=
  if s.tasks.isEmpty || !s.isActive then s
  else if s.currentTaskTimeoutId = none then
    scheduleNext s (computeWait s.jobIntervalMillis s.lastTaskTimestamp s.now)
  else s

/-- The `setTimeout` callback armed by `scheduleNext`, firing at wall-clock
instant `t`: the host consumes the outstanding timer, the callback sets
`lastTaskTimestamp = Date.now()`, runs `processNextTask()`, then re-arms via
`scheduleNext(queue.jobIntervalMillis)`. -/
def fireTimer (s : Sys α ε) (t : ℤ) : Sys α ε :=
  scheduleNext
    (processNextTask
      { s with now := t
               outstanding := s.outstanding - 1
               armedWait := none
               lastTaskTimestamp := some t })
    s.jobIntervalMillis

/-- The new task item built inside the promise executor of `add`, carrying the
next fresh entry id. -/
def newEntry (s : Sys α ε) (tid : Nat) (r : Except ε α) : TaskEntry α ε :=
  ⟨s.nextEntryId, tid, r⟩

/-- The body of `PromiseQueue.prototype.add(task, append)`: the promise
executor runs synchronously and pushes to the tail when the queue is empty
or `append` is set, else unshifts to the head; then `updateTaskSchedule()`
is invoked. -/
def add (s : Sys α ε) (tid : Nat) (r : Except ε α) (app : Bool) : Sys α ε :=
  updateTaskSchedule
    { s with tasks :=
               if s.tasks.isEmpty || app then s.tasks ++ [newEntry s tid r]
               else newEntry s tid r :: s.tasks
             nextEntryId := s.nextEntryId + 1 }

/-- The body of `PromiseQueue.prototype.append(task)`: `add(task, true)`. -/
def appendTask (s : Sys α ε) (tid : Nat) (r : Except ε α) : Sys α ε :=
  add s tid r true

/-- The body of `PromiseQueue.prototype.prepend(task)`: `add(task, false)`. -/
def prependTask (s : Sys α ε) (tid : Nat) (r : Except ε α) : Sys α ε :=
  add s tid r false

/-- The body of `PromiseQueue.prototype.start()`: on an active queue return
`false`; otherwise set the active flag, run `updateTaskSchedule()` and
return `true`. -/
def startQueue (s : Sys α ε) : Sys α ε × Bool :=
  if s.isActive then (s, false)
  else (updateTaskSchedule { s with isActive := true }, true)

/-- The body of `PromiseQueue.prototype.stop()`: on an active queue clear
the active flag and, only when `currentTaskTimeoutId` is truthy, cancel the
outstanding timer (`clearInterval`) and null both the handle and
`lastTaskTimestamp`; an inactive queue is left untouched. -/
def stop (s : Sys α ε) : Sys α ε :=
  if s.isActive then
    if truthyHandle s.currentTaskTimeoutId then
      { s with isActive := false
               currentTaskTimeoutId := none
               lastTaskTimestamp := none
               outstanding := s.outstanding - 1
               armedWait := none }
    else { s with isActive := false }
  else s

/-- The splice loop of `PromiseQueue.prototype.remove(task)`, which walks
the index `i` from `tasks.length - 1` down to `0`, splicing out every item
whose `task` is reference-identical to the argument and counting the
removals.  The loop handles each index independently, deepest recursive
call first, so it is the structural recursion that keeps or drops the head
after processing the tail. -/
def removeScan (tid : Nat) : List (TaskEntry α ε) → List (TaskEntry α ε) × Nat
  | [] => ([], 0)
  | e :: rest =>
    let p := removeScan tid rest
    if e.taskId = tid then (p.1, p.2 + 1) else (e :: p.1, p.2)

/-- The body of `PromiseQueue.prototype.remove(task)`: `0` straight away on
an empty queue, otherwise the surviving items of the splice loop and removal
count. -/
def removeTask (s : Sys α ε) (tid : Nat) : Sys α ε × Nat :=
  if s.tasks.isEmpty then (s, 0)
  else ({ s with tasks := (removeScan tid s.tasks).1 }, (removeScan tid s.tasks).2)

/-- One external stimulus applied to a queue instance: a caller invoking
`add`/`remove`/`start`/`stop`, the host firing the armed timer at instant
`t`, or the wall clock advancing to instant `t` with nothing else
happening. -/
inductive Event (α ε : Type) where
  | evAdd (tid : Nat) (r : Except ε α) (app : Bool)
  | evRemove (tid : Nat)
  | evStart
  | evStop
  | evFire (t : ℤ)
  | evTick (t : ℤ)

/-- Interpretation of one event.  A `evFire` is a genuine timer callback
and can only happen while a host timer is outstanding; with none armed it
is a no-op. -/
def step (s : Sys α ε) : Event α ε → Sys α ε
  | .evAdd tid r app => add s tid r app
  | .evRemove tid => (removeTask s tid).1
  | .evStart => (startQueue s).1
  | .evStop => stop s
  | .evFire t => if s.outstanding = 0 then s else fireTimer s t
  | .evTick t => { s with now := t }

/-- State of a freshly constructed queue whose computed `jobIntervalMillis`
is `interval`: empty task list, stopped, null timestamp and null timer
handle, and empty ghost traces.  The rate-to-interval
division itself is embedded as `construct`. -/
def init (interval : ℤ) : Sys α ε :=
  ⟨[], false, interval, none, none, 0, 0, 0, 0, [], [], none⟩

/-- The state reached from a freshly constructed queue by a sequence of
events. -/
def reach (interval : ℤ) (evs : List (Event α ε)) : Sys α ε :=
  evs.foldl step (init interval)

/-- The fields initialised by the constructor `PromiseQueue(maxCallsPerSecond)`.
`jobIntervalMillis` is an optional rational: `none` embeds the JS `NaN`. -/
structure CtorState (α ε : Type) where
  maxCallsPerSecond : ℚ
  tasks : List (TaskEntry α ε)
  isActive : Bool
  jobIntervalMillis : Option ℚ
  lastTaskTimestamp : Option ℤ
  currentTaskTimeoutId : Option Nat

/-- The constructor body: `arg = none` embeds calling `new PromiseQueue()`
with the argument `undefined`.  The stored rate is the defaulted value
(`typeof(maxCallsPerSecond) === "undefined" ? 1 : maxCallsPerSecond`), but
`this.jobIntervalMillis = 1000 / maxCallsPerSecond` divides by the raw
parameter, so the `undefined` case yields `1000 / undefined = NaN`,
embedded as `none`. -/
def construct (arg : Option ℚ) : CtorState α ε :=
  { maxCallsPerSecond := arg.getD 1
    tasks := []
    isActive := false
    jobIntervalMillis :=
      match arg with
      | none => none
      | some r => some (1000 / r)
    lastTaskTimestamp := none
    currentTaskTimeoutId := none }

/-- Entries created by a run of appends starting at fresh entry id `k`:
the caller-supplied task identities and outcomes in `ps`, paired with
consecutive entry ids. -/
def entriesOf (k : Nat) : List (Nat × Except ε α) → List (TaskEntry α ε)
  | [] => []
  | p :: ps => ⟨k, p.1, p.2⟩ :: entriesOf (k + 1) ps

/-- Settlement trace produced by executing, in order, tasks whose outcomes
are `ps`, the first of which has entry id `k`. -/
def settleOf (k : Nat) : List (Nat × Except ε α) → List (Nat × Except ε α)
  | [] => []
  | p :: ps => (k, p.2) :: settleOf (k + 1) ps

/-- Append events for the task list `ps` (task identity, outcome). -/
def addEvents : List (Nat × Except ε α) → List (Event α ε)
  | [] => []
  | p :: ps => Event.evAdd p.1 p.2 true :: addEvents ps

/-- Timer firings at the given instants. -/
def fireEvents : List ℤ → List (Event α ε)
  | [] => []
  | t :: ts => Event.evFire t :: fireEvents ts

/-- A schedule re-evaluation never changes the task list, the traces, the
lifecycle flag, the timestamp, the clock, the interval or the entry-id
counter; it can only touch the timer bookkeeping. -/
theorem uts_keeps (s : Sys α ε) :
    (updateTaskSchedule s).tasks = s.tasks ∧
    (updateTaskSchedule s).executions = s.executions ∧
    (updateTaskSchedule s).settlements = s.settlements ∧
    (updateTaskSchedule s).isActive = s.isActive ∧
    (updateTaskSchedule s).lastTaskTimestamp = s.lastTaskTimestamp ∧
    (updateTaskSchedule s).nextEntryId = s.nextEntryId ∧
    (updateTaskSchedule s).now = s.now ∧
    (updateTaskSchedule s).jobIntervalMillis = s.jobIntervalMillis := by
  unfold updateTaskSchedule scheduleNext
  repeat' split
  all_goals simp

/-- A re-evaluation on an inactive queue does nothing. -/
theorem uts_inactive {s : Sys α ε} (h : s.isActive = false) :
    updateTaskSchedule s = s := by
  simp [updateTaskSchedule, h]

/-- A re-evaluation on an empty queue does nothing. -/
theorem uts_empty {s : Sys α ε} (h : s.tasks = []) :
    updateTaskSchedule s = s := by
  simp [updateTaskSchedule, h]

/-- A re-evaluation while a timer handle is set does nothing. -/
theorem uts_handleSome {s : Sys α ε} (h : s.currentTaskTimeoutId.isSome = true) :
    updateTaskSchedule s = s := by
  unfold updateTaskSchedule
  split
  · rfl
  · split
    · next hnone => rw [hnone] at h; simp at h
    · rfl

/-- A re-evaluation on an active non-empty queue with no timer handle arms
exactly one timer, with the computed wait. -/
theorem uts_arm {s : Sys α ε} (h1 : s.isActive = true)
    (h2 : s.tasks.isEmpty = false) (h3 : s.currentTaskTimeoutId = none) :
    updateTaskSchedule s =
      { s with currentTaskTimeoutId := some (s.nextTimerId + 1)
               nextTimerId := s.nextTimerId + 1
               outstanding := s.outstanding + 1
               armedWait := some (computeWait s.jobIntervalMillis
                                    s.lastTaskTimestamp s.now) } := by
  simp [updateTaskSchedule, scheduleNext, h1, h2, h3]

/-- On an inactive queue, `add` is a pure queue mutation. -/
theorem add_inactive {s : Sys α ε} (h : s.isActive = false)
    (tid : Nat) (r : Except ε α) (app : Bool) :
    add s tid r app =
      { s with tasks :=
                 if s.tasks.isEmpty || app then s.tasks ++ [newEntry s tid r]
                 else newEntry s tid r :: s.tasks
               nextEntryId := s.nextEntryId + 1 } := by
  unfold add
  exact uts_inactive h

/-- On an inactive queue, an append pushes to the tail and does nothing else. -/
theorem append_inactive {s : Sys α ε} (h : s.isActive = false)
    (tid : Nat) (r : Except ε α) :
    add s tid r true =
      { s with tasks := s.tasks ++ [newEntry s tid r]
               nextEntryId := s.nextEntryId + 1 } := by
  rw [add_inactive h]
  simp

/-- Folding a block of appends over an inactive queue appends the matching
entries, with consecutive fresh entry ids, and changes nothing else. -/
theorem foldl_addEvents (ps : List (Nat × Except ε α)) :
    ∀ s : Sys α ε, s.isActive = false →
      List.foldl step s (addEvents ps) =
        { s with tasks := s.tasks ++ entriesOf s.nextEntryId ps
                 nextEntryId := s.nextEntryId + ps.length } := by
  induction ps with
  | nil =>
    intro s _
    simp [addEvents, entriesOf]
  | cons p ps ih =>
    intro s h
    have hstep : step s (Event.evAdd p.1 p.2 true) = add s p.1 p.2 true := rfl
    rw [addEvents, List.foldl_cons, hstep, append_inactive h]
    rw [ih _ (by simpa using h)]
    simp [entriesOf, newEntry, Sys.mk.injEq, List.append_assoc,
      Nat.add_comm, Nat.add_assoc, Nat.add_left_comm]

/-- Invariant of a running append-only session: the tasks still queued are
the entries of `rest` (ids continuing after the `done` ones), the executed
and settled traces are exactly the `done` portion in order, the queue is
active, and exactly one timer is outstanding unless nothing is left. -/
def RunState (done rest : List (Nat × Except ε α)) (s : Sys α ε) : Prop :=
  s.tasks = entriesOf done.length rest ∧
  s.executions = List.range done.length ∧
  s.settlements = settleOf 0 done ∧
  s.isActive = true ∧
  s.outstanding = (if rest.isEmpty then 0 else 1)

/-- Appending one task outcome to a settlement trace. -/
theorem settleOf_append_single (k : Nat) (xs : List (Nat × Except ε α))
    (p : Nat × Except ε α) :
    settleOf k (xs ++ [p]) = settleOf k xs ++ [(k + xs.length, p.2)] := by
  induction xs generalizing k with
  | nil => simp [settleOf]
  | cons x xs ih =>
    simp [settleOf, ih, Nat.add_comm, Nat.add_assoc, Nat.add_left_comm]

/-- Length of the produced entry list. -/
theorem entriesOf_length (k : Nat) (ps : List (Nat × Except ε α)) :
    (entriesOf (α := α) (ε := ε) k ps).length = ps.length := by
  induction ps generalizing k with
  | nil => simp [entriesOf]
  | cons p ps ih => simp [entriesOf, ih]

/-- Unfolding of `processNextTask` on a non-empty queue: the head is
shifted, executed, and its promise settled with its outcome. -/
theorem processNextTask_cons {s : Sys α ε} {e : TaskEntry α ε}
    {rest : List (TaskEntry α ε)} (h : s.tasks = e :: rest) :
    processNextTask s =
      { s with tasks := rest
               executions := s.executions ++ [e.entryId]
               settlements := s.settlements ++ [(e.entryId, e.run)] } := by
  unfold processNextTask
  split
  · next hnil => rw [hnil] at h; exact absurd h (by simp)
  · next e2 rest2 hcons =>
    rw [hcons] at h
    injection h with h1 h2
    subst h1; subst h2
    rfl

/-- One timer firing in a running session executes exactly the head entry
and moves it from the pending side to the done side. -/
theorem fire_runstate {done rest : List (Nat × Except ε α)}
    {p : Nat × Except ε α} {s : Sys α ε}
    (h : RunState done (p :: rest) s) (t : ℤ) :
    RunState (done ++ [p]) rest (step s (Event.evFire t)) := by
  obtain ⟨ht, he, hs, ha, ho⟩ := h
  have hout : s.outstanding = 1 := by simpa using ho
  have hfire : step s (Event.evFire t) = fireTimer s t := by
    simp [step, hout]
  have hcons : ({ s with now := t
                         outstanding := s.outstanding - 1
                         armedWait := none
                         lastTaskTimestamp := some t } : Sys α ε).tasks
      = (⟨done.length, p.1, p.2⟩ : TaskEntry α ε) :: entriesOf (done.length + 1) rest := by
    simpa [entriesOf] using ht
  rw [hfire]
  unfold fireTimer
  rw [processNextTask_cons hcons]
  unfold scheduleNext
  refine ⟨?_, ?_, ?_, ?_, ?_⟩ <;>
    cases hrest : rest <;>
    simp [hrest, entriesOf, he, hs, ha, hout, List.range_succ,
      settleOf_append_single]

/-- Firing any number of times in a running session executes, in order, one
pending entry per firing. -/
theorem fires_runstate (times : List ℤ) :
    ∀ (done rest : List (Nat × Except ε α)) (s : Sys α ε),
      RunState done rest s → times.length ≤ rest.length →
      RunState (done ++ rest.take times.length) (rest.drop times.length)
        (List.foldl step s (fireEvents times)) := by
  induction times with
  | nil =>
    intro done rest s h _
    simpa [fireEvents] using h
  | cons t ts ih =>
    intro done rest s h hlen
    cases rest with
    | nil => simp at hlen
    | cons p rest =>
      rw [fireEvents, List.foldl_cons]
      have h1 := fire_runstate h t
      have h2 := ih (done ++ [p]) rest _ h1 (by simpa using hlen)
      simpa [List.append_assoc] using h2

/-- Appending tasks to a fresh queue and starting it yields a running
session with everything still pending. -/
theorem start_runstate (interval : ℤ) (ps : List (Nat × Except ε α)) :
    RunState [] ps (reach interval (addEvents ps ++ [Event.evStart])) := by
  unfold reach
  rw [List.foldl_append, foldl_addEvents ps (init interval) rfl]
  have hstart : ∀ s : Sys α ε, s.isActive = false →
      List.foldl step s [Event.evStart] = updateTaskSchedule { s with isActive := true } := by
    intro s h
    simp [step, startQueue, h]
  rw [hstart _ rfl]
  cases ps with
  | nil =>
    rw [uts_empty (by simp [init, entriesOf])]
    refine ⟨?_, ?_, ?_, ?_, ?_⟩ <;> simp [init, entriesOf, settleOf]
  | cons p ps =>
    rw [uts_arm rfl (by simp [init, entriesOf]) rfl]
    refine ⟨?_, ?_, ?_, ?_, ?_⟩ <;> simp [init, entriesOf, settleOf]

/-- The mutual-exclusion invariant of the timer bookkeeping: the number of
live host timers is one exactly when the handle is set; an inactive queue
holds no handle; and every allocated handle is a truthy (non-zero) value. -/
def Inv (s : Sys α ε) : Prop :=
  s.outstanding = (if s.currentTaskTimeoutId.isSome then 1 else 0) ∧
  (s.isActive = false → s.currentTaskTimeoutId = none) ∧
  (∀ n, s.currentTaskTimeoutId = some n → n ≠ 0)

/-- A fresh queue satisfies the timer invariant. -/
theorem inv_init (interval : ℤ) : Inv (init interval : Sys α ε) := by
  refine ⟨by simp [init], by simp [init], ?_⟩
  intro n hn
  simp [init] at hn

/-- A schedule re-evaluation preserves the timer invariant. -/
theorem inv_uts {s : Sys α ε} (h : Inv s) : Inv (updateTaskSchedule s) := by
  obtain ⟨h1, h2, h3⟩ := h
  unfold updateTaskSchedule
  split
  · exact ⟨h1, h2, h3⟩
  · next hguard =>
    have hact : s.isActive = true := by
      rcases Bool.eq_false_or_eq_true s.isActive with ht | hf
      · exact ht
      · simp [hf] at hguard
    split
    · next hnone =>
      have hout0 : s.outstanding = 0 := by simp [h1, hnone]
      unfold scheduleNext
      split
      · refine ⟨by simpa [hnone] using h1, by intro hf; rfl, ?_⟩
        intro n hn
        simp at hn
      · refine ⟨by simp [hout0], by simp [hact], ?_⟩
        intro n hn
        simp at hn
        omega
    · exact ⟨h1, h2, h3⟩

/-- Every event preserves the timer invariant. -/
theorem inv_step {s : Sys α ε} (h : Inv s) (e : Event α ε) : Inv (step s e) := by
  obtain ⟨h1, h2, h3⟩ := h
  cases e with
  | evAdd tid r app =>
    exact inv_uts ⟨h1, h2, h3⟩
  | evRemove tid =>
    show Inv (removeTask s tid).1
    unfold removeTask
    split
    · exact ⟨h1, h2, h3⟩
    · exact ⟨h1, h2, h3⟩
  | evStart =>
    show Inv (startQueue s).1
    unfold startQueue
    split
    · exact ⟨h1, h2, h3⟩
    · next hna =>
      have hact : s.isActive = false := by
        rcases Bool.eq_false_or_eq_true s.isActive with ht | hf
        · exact absurd ht hna
        · exact hf
      have hnone : s.currentTaskTimeoutId = none := h2 hact
      refine inv_uts ⟨by simpa [hnone] using h1, by intro hf; exact hnone, ?_⟩
      intro n hn
      exact h3 n hn
  | evStop =>
    show Inv (stop s)
    unfold stop
    split
    · split
      · next htr =>
        have hsome : s.currentTaskTimeoutId.isSome := by
          cases hc : s.currentTaskTimeoutId with
          | none => rw [hc] at htr; simp [truthyHandle] at htr
          | some n => simp
        refine ⟨by simp [h1, hsome], by intro hf; rfl, ?_⟩
        intro n hn
        simp at hn
      · next htr =>
        have hnone : s.currentTaskTimeoutId = none := by
          cases hc : s.currentTaskTimeoutId with
          | none => rfl
          | some n =>
            exfalso
            have hnz : n ≠ 0 := h3 n hc
            rw [hc] at htr
            simp [truthyHandle, hnz] at htr
        refine ⟨by simpa [hnone] using h1, by intro hf; exact hnone, ?_⟩
        intro n hn
        rw [hnone] at hn
        exact absurd hn (by simp)
    · exact ⟨h1, h2, h3⟩
  | evFire t =>
    show Inv (if s.outstanding = 0 then s else fireTimer s t)
    split
    · exact ⟨h1, h2, h3⟩
    · next hnz =>
      have hsome : s.currentTaskTimeoutId.isSome := by
        cases hc : s.currentTaskTimeoutId with
        | none => rw [hc] at h1; simp at h1; exact absurd h1 hnz
        | some n => simp
      have hact : s.isActive = true := by
        rcases Bool.eq_false_or_eq_true s.isActive with ht | hf
        · exact ht
        · rw [h2 hf] at hsome; simp at hsome
      have hout1 : s.outstanding = 1 := by simp [h1, hsome]
      unfold fireTimer processNextTask
      split <;>
      · unfold scheduleNext
        split
        · refine ⟨by simp [hout1], by intro hf; rfl, ?_⟩
          intro n hn
          simp at hn
        · refine ⟨by simp [hout1], by simp [hact], ?_⟩
          intro n hn
          simp at hn
          omega
  | evTick t =>
    exact ⟨h1, h2, h3⟩

/-- Every reachable state satisfies the timer invariant. -/
theorem inv_reach (interval : ℤ) (evs : List (Event α ε)) :
    Inv (reach interval evs) := by
  unfold reach
  have hgen : ∀ (l : List (Event α ε)) (s : Sys α ε), Inv s → Inv (List.foldl step s l) := by
    intro l
    induction l with
    | nil => intro s h; exact h
    | cons e l ih =>
      intro s h
      exact ih _ (inv_step h e)
  exact hgen evs _ (inv_init interval)

/-- The splice loop keeps exactly the items whose task identity differs
from the argument, in their original order, and counts the matches. -/
theorem removeScan_spec (tid : Nat) (l : List (TaskEntry α ε)) :
    removeScan tid l =
      (l.filter (fun e => e.taskId ≠ tid), l.countP (fun e => e.taskId = tid)) := by
  induction l with
  | nil => simp [removeScan]
  | cons e rest ih =>
    rw [removeScan, ih]
    by_cases h : e.taskId = tid <;>
      simp [h, List.filter_cons, List.countP_cons]

/-- The identity portion of the settlement trace: executing outcomes `ps`
starting at entry id `k` settles the consecutive ids from `k`. -/
theorem settleOf_map_fst (k : Nat) (ps : List (Nat × Except ε α)) :
    (settleOf (α := α) (ε := ε) k ps).map Prod.fst = List.range' k ps.length := by
  induction ps generalizing k with
  | nil => simp [settleOf]
  | cons p ps ih => simp [settleOf, ih, List.range'_succ]

/-- C1: appending tasks in order and starting the queue executes them
strictly in queue order from the head, exactly one entry per timer firing
(after `k` firings the execution trace is exactly the entry ids `0..k-1`,
in order), no entry more than once, and after one firing per task the
trace is exactly the whole appended sequence and the queue is empty. -/
theorem claim1_fifo_order (interval : ℤ) (ps : List (Nat × Except ε α))
    (times : List ℤ) (h : times.length ≤ ps.length) :
    (reach interval (addEvents ps ++ Event.evStart :: fireEvents times)).executions
      = List.range times.length
    ∧ (times.length = ps.length →
        (reach interval (addEvents ps ++ Event.evStart :: fireEvents times)).tasks = []) := by
  have hreach : reach interval (addEvents ps ++ Event.evStart :: fireEvents times)
      = List.foldl step (reach interval (addEvents ps ++ [Event.evStart]))
          (fireEvents times) := by
    unfold reach
    rw [show addEvents ps ++ Event.evStart :: fireEvents times
        = (addEvents ps ++ [Event.evStart]) ++ fireEvents times by simp]
    rw [List.foldl_append]
  have hrun := fires_runstate times [] ps _ (start_runstate interval ps) h
  obtain ⟨ht, he, hs, ha, ho⟩ := hrun
  rw [hreach]
  constructor
  · rw [he]
    congr 1
    simp [Nat.min_eq_left h]
  · intro heq
    rw [ht, heq]
    simp [entriesOf, List.drop_length]

/-- Witness for C1 at three appended tasks (the second one throwing) and
three timer firings: the execution order is exactly entry 0, 1, 2 and the
queue ends empty. -/
theorem claim1_fifo_order_witness :
    (reach (α := Bool) (ε := Bool) 1000
        (addEvents [(5, Except.ok true), (6, Except.error false), (7, Except.ok true)]
          ++ Event.evStart :: fireEvents [10, 20, 30])).executions
      = List.range 3
    ∧ (reach (α := Bool) (ε := Bool) 1000
        (addEvents [(5, Except.ok true), (6, Except.error false), (7, Except.ok true)]
          ++ Event.evStart :: fireEvents [10, 20, 30])).tasks = [] :=
  ⟨(claim1_fifo_order 1000
      [(5, Except.ok true), (6, Except.error false), (7, Except.ok true)]
      [10, 20, 30] (by decide)).1,
   (claim1_fifo_order 1000
      [(5, Except.ok true), (6, Except.error false), (7, Except.ok true)]
      [10, 20, 30] (by decide)).2 rfl⟩

/-- C3: at most one outstanding host timer ever exists for a queue
instance, in every reachable state; and a re-evaluation while the timer
handle is set leaves the state entirely unchanged, so it never arms a
second timer. -/
theorem claim3_single_timer :
    (∀ (interval : ℤ) (evs : List (Event α ε)),
        (reach interval evs).outstanding ≤ 1)
    ∧ (∀ s : Sys α ε, s.currentTaskTimeoutId.isSome = true →
        updateTaskSchedule s = s) := by
  constructor
  · intro interval evs
    rw [(inv_reach interval evs).1]
    split <;> simp
  · intro s hs
    exact uts_handleSome hs

/-- Witness for C3: a reachable state with a freshly armed timer has at
most one outstanding, and a re-evaluation on a state whose handle is set
is the identity. -/
theorem claim3_single_timer_witness :
    (reach (α := Bool) (ε := Bool) 1000
        [Event.evAdd 7 (Except.ok true) true, Event.evStart]).outstanding ≤ 1
    ∧ updateTaskSchedule
        (⟨[⟨0, 7, Except.ok true⟩], true, 1000, none, some 1, 0, 1, 1, 1, [], [], some 0⟩
          : Sys Bool Bool)
      = (⟨[⟨0, 7, Except.ok true⟩], true, 1000, none, some 1, 0, 1, 1, 1, [], [], some 0⟩
          : Sys Bool Bool) :=
  ⟨claim3_single_timer.1 1000 [Event.evAdd 7 (Except.ok true) true, Event.evStart],
   claim3_single_timer.2 _ (by decide)⟩

/-- C5: while the active flag is false nothing executes and nothing
settles — any block of appends on a stopped queue just grows the task list
to the matching size with empty traces and no timer armed — and a timer
firing against a reachable inactive state changes nothing at all. -/
theorem claim5_inactive_no_execution :
    (∀ (interval : ℤ) (ps : List (Nat × Except ε α)),
        (reach interval (addEvents ps)).tasks.length = ps.length
        ∧ (reach interval (addEvents ps)).executions = []
        ∧ (reach interval (addEvents ps)).settlements = []
        ∧ (reach interval (addEvents ps)).isActive = false
        ∧ (reach interval (addEvents ps)).outstanding = 0)
    ∧ (∀ (interval : ℤ) (evs : List (Event α ε)) (t : ℤ),
        (reach interval evs).isActive = false →
        step (reach interval evs) (Event.evFire t) = reach interval evs) := by
  constructor
  · intro interval ps
    unfold reach
    rw [foldl_addEvents ps (init interval) rfl]
    refine ⟨?_, ?_, ?_, ?_, ?_⟩ <;> simp [init, entriesOf_length]
  · intro interval evs t hinact
    have hinv := inv_reach interval evs
    have hnone := hinv.2.1 hinact
    have hout : (reach interval evs).outstanding = 0 := by
      rw [hinv.1, hnone]
      rfl
    simp [step, hout]

/-- Witness for C5: two appends on a stopped queue give size two, empty
traces and no timer; and a firing against a stopped reachable state is the
identity. -/
theorem claim5_inactive_no_execution_witness :
    ((reach (α := Bool) (ε := Bool) 1000
        (addEvents [(5, Except.ok true), (6, Except.error false)])).tasks.length = 2
      ∧ (reach (α := Bool) (ε := Bool) 1000
          (addEvents [(5, Except.ok true), (6, Except.error false)])).executions = []
      ∧ (reach (α := Bool) (ε := Bool) 1000
          (addEvents [(5, Except.ok true), (6, Except.error false)])).settlements = []
      ∧ (reach (α := Bool) (ε := Bool) 1000
          (addEvents [(5, Except.ok true), (6, Except.error false)])).isActive = false
      ∧ (reach (α := Bool) (ε := Bool) 1000
          (addEvents [(5, Except.ok true), (6, Except.error false)])).outstanding = 0)
    ∧ step (reach (α := Bool) (ε := Bool) 1000 [Event.evAdd 9 (Except.ok true) true])
        (Event.evFire 25)
      = reach (α := Bool) (ε := Bool) 1000 [Event.evAdd 9 (Except.ok true) true] :=
  ⟨claim5_inactive_no_execution.1 1000 [(5, Except.ok true), (6, Except.error false)],
   claim5_inactive_no_execution.2 1000 [Event.evAdd 9 (Except.ok true) true] 25 (by decide)⟩

/-- C6: every executed task settles its promise exactly once, with exactly
its own outcome (the returned value, or the thrown value unmodified), and
tasks that throw do not stop later tasks: running any appended sequence to
completion produces the full settlement trace in order, one settlement per
entry id. -/
theorem claim6_settlement_trace (interval : ℤ) (ps : List (Nat × Except ε α)) :
    (reach interval (addEvents ps
        ++ Event.evStart :: fireEvents (List.replicate ps.length 0))).settlements
      = settleOf 0 ps
    ∧ ((reach interval (addEvents ps
        ++ Event.evStart :: fireEvents (List.replicate ps.length 0))).settlements.map
          Prod.fst).Nodup
    ∧ (reach interval (addEvents ps
        ++ Event.evStart :: fireEvents (List.replicate ps.length 0))).executions
      = List.range ps.length := by
  have hreach : reach interval
        (addEvents ps ++ Event.evStart :: fireEvents (List.replicate ps.length 0))
      = List.foldl step (reach interval (addEvents ps ++ [Event.evStart]))
          (fireEvents (List.replicate ps.length 0)) := by
    unfold reach
    rw [show addEvents ps ++ Event.evStart :: fireEvents (List.replicate ps.length 0)
        = (addEvents ps ++ [Event.evStart]) ++ fireEvents (List.replicate ps.length 0)
        by simp]
    rw [List.foldl_append]
  have hrun := fires_runstate (List.replicate ps.length 0) [] ps _
    (start_runstate interval ps) (by simp)
  obtain ⟨ht, he, hs, ha, ho⟩ := hrun
  rw [hreach]
  refine ⟨?_, ?_, ?_⟩
  · rw [hs]
    simp
  · rw [hs]
    simp [settleOf_map_fst, List.nodup_range']
  · rw [he]
    simp

/-- Counterexample to C2 as stated: a queue with interval 100 runs its
only task at instant 1, the clock reaches 500, and a new task is appended.
At this re-evaluation no timer is outstanding, the queue is active and
non-empty, and elapsed = 500 - 1 = 499 ≥ 100, so the claim says the
computed wait is 0 — but the code arms the timer with a full interval of
100. -/
theorem claim2_wait_counterexample :
    (reach (α := Bool) (ε := Bool) 100
        [Event.evAdd 7 (Except.ok true) true, Event.evStart, Event.evFire 1,
         Event.evTick 500]).isActive = true
    ∧ (reach (α := Bool) (ε := Bool) 100
        [Event.evAdd 7 (Except.ok true) true, Event.evStart, Event.evFire 1,
         Event.evTick 500]).currentTaskTimeoutId = none
    ∧ (reach (α := Bool) (ε := Bool) 100
        [Event.evAdd 7 (Except.ok true) true, Event.evStart, Event.evFire 1,
         Event.evTick 500]).lastTaskTimestamp = some 1
    ∧ (reach (α := Bool) (ε := Bool) 100
        [Event.evAdd 7 (Except.ok true) true, Event.evStart, Event.evFire 1,
         Event.evTick 500]).now = 500
    ∧ (reach (α := Bool) (ε := Bool) 100
        [Event.evAdd 7 (Except.ok true) true, Event.evStart, Event.evFire 1,
         Event.evTick 500]).jobIntervalMillis = 100
    ∧ (reach (α := Bool) (ε := Bool) 100
        [Event.evAdd 7 (Except.ok true) true, Event.evStart, Event.evFire 1,
         Event.evTick 500, Event.evAdd 8 (Except.ok true) true]).armedWait = some 100 := by
  decide

/-- C2 as amended: at a re-evaluation with no timer outstanding on an
active non-empty queue, the timer is armed with the computed wait, which is
0 when the last-execution timestamp is null, a full `intervalMillis` (not
0) when elapsed is strictly greater than `intervalMillis`, and
`intervalMillis - elapsed` clamped below at 0 otherwise; the wait is never
negative when the interval is non-negative. -/
theorem claim2_wait_amended (s : Sys α ε) (h1 : s.isActive = true)
    (h2 : s.tasks ≠ []) (h3 : s.currentTaskTimeoutId = none) :
    (updateTaskSchedule s).armedWait
      = some (computeWait s.jobIntervalMillis s.lastTaskTimestamp s.now)
    ∧ (s.lastTaskTimestamp = none →
        computeWait s.jobIntervalMillis s.lastTaskTimestamp s.now = 0)
    ∧ (∀ t0 : ℤ, s.lastTaskTimestamp = some t0 → t0 ≠ 0 →
        s.now - t0 > s.jobIntervalMillis →
        computeWait s.jobIntervalMillis s.lastTaskTimestamp s.now
          = s.jobIntervalMillis)
    ∧ (∀ t0 : ℤ, s.lastTaskTimestamp = some t0 → t0 ≠ 0 →
        s.now - t0 ≤ s.jobIntervalMillis →
        computeWait s.jobIntervalMillis s.lastTaskTimestamp s.now
          = max 0 (s.jobIntervalMillis - (s.now - t0)))
    ∧ (0 ≤ s.jobIntervalMillis →
        0 ≤ computeWait s.jobIntervalMillis s.lastTaskTimestamp s.now) := by
  refine ⟨?_, ?_, ?_, ?_, ?_⟩
  · rw [uts_arm h1 (by simpa using h2) h3]
  · intro hn
    simp [computeWait, hn, truthyTime]
  · intro t0 ht0 hnz hgt
    rw [computeWait]
    rw [if_pos (by simp [ht0, truthyTime, hnz])]
    simp only [ht0, Option.getD_some]
    rw [if_pos hgt]
  · intro t0 ht0 hnz hle
    rw [computeWait]
    rw [if_pos (by simp [ht0, truthyTime, hnz])]
    simp only [ht0, Option.getD_some]
    rw [if_neg (by omega)]
  · intro hpos
    rw [computeWait]
    split
    · dsimp only
      split
      · exact hpos
      · exact le_max_left 0 _
    · exact le_refl 0

/-- Witness for C2 as amended, at a concrete active non-empty state with
no handle, last execution at instant 1, clock at 500 and interval 100: the
re-evaluation arms the computed wait, and that wait is the full interval
100 because elapsed 499 exceeds 100. -/
theorem claim2_wait_amended_witness :
    (updateTaskSchedule
        (⟨[⟨0, 7, Except.ok true⟩], true, 100, some 1, none, 500, 0, 0, 1, [], [], none⟩
          : Sys Bool Bool)).armedWait
      = some (computeWait 100 (some 1) 500)
    ∧ computeWait 100 (some 1) 500 = 100 :=
  ⟨(claim2_wait_amended
      (⟨[⟨0, 7, Except.ok true⟩], true, 100, some 1, none, 500, 0, 0, 1, [], [], none⟩
        : Sys Bool Bool) rfl (by decide) rfl).1,
   (claim2_wait_amended
      (⟨[⟨0, 7, Except.ok true⟩], true, 100, some 1, none, 500, 0, 0, 1, [], [], none⟩
        : Sys Bool Bool) rfl (by decide) rfl).2.2.1 1 rfl (by decide) (by decide)⟩

/-- Counterexample to C4 as stated: a queue executes its only task at
instant 50 (after which no timer is outstanding), and is then stopped.
The claim says `stop` sets the last-execution timestamp to null also when
no timer is outstanding, but the code leaves it at 50. -/
theorem claim4_stop_counterexample :
    (reach (α := Bool) (ε := Bool) 1000
        [Event.evAdd 7 (Except.ok true) true, Event.evStart,
         Event.evFire 50]).isActive = true
    ∧ (reach (α := Bool) (ε := Bool) 1000
        [Event.evAdd 7 (Except.ok true) true, Event.evStart,
         Event.evFire 50]).currentTaskTimeoutId = none
    ∧ (stop (reach (α := Bool) (ε := Bool) 1000
        [Event.evAdd 7 (Except.ok true) true, Event.evStart,
         Event.evFire 50])).isActive = false
    ∧ (stop (reach (α := Bool) (ε := Bool) 1000
        [Event.evAdd 7 (Except.ok true) true, Event.evStart,
         Event.evFire 50])).lastTaskTimestamp = some 50 := by
  decide

/-- C4 as amended: `stop` on an inactive queue changes nothing; on an
active queue it always clears the active flag, and it cancels the timer
and nulls both the handle and the last-execution timestamp only when a
(truthy) timer handle is outstanding — when none is outstanding the
last-execution timestamp (and everything except the active flag) is left
unchanged. -/
theorem claim4_stop_amended (s : Sys α ε) :
    (s.isActive = false → stop s = s)
    ∧ (s.isActive = true → (stop s).isActive = false)
    ∧ (s.isActive = true → truthyHandle s.currentTaskTimeoutId = true →
        (stop s).currentTaskTimeoutId = none
        ∧ (stop s).lastTaskTimestamp = none
        ∧ (stop s).outstanding = s.outstanding - 1)
    ∧ (s.isActive = true → truthyHandle s.currentTaskTimeoutId = false →
        (stop s).lastTaskTimestamp = s.lastTaskTimestamp
        ∧ (stop s).currentTaskTimeoutId = s.currentTaskTimeoutId
        ∧ (stop s).tasks = s.tasks
        ∧ (stop s).outstanding = s.outstanding) := by
  refine ⟨?_, ?_, ?_, ?_⟩
  · intro h
    simp [stop, h]
  · intro h
    unfold stop
    rw [if_pos h]
    split <;> rfl
  · intro h htr
    unfold stop
    rw [if_pos h, if_pos htr]
    exact ⟨rfl, rfl, rfl⟩
  · intro h htr
    unfold stop
    rw [if_pos h, if_neg (by simp [htr])]
    exact ⟨rfl, rfl, rfl, rfl⟩

/-- Witness for C4 as amended at the reachable state of the
counterexample — active, timer already consumed, timestamp 50: `stop`
flips the flag but keeps the timestamp. -/
theorem claim4_stop_amended_witness :
    ((stop (reach (α := Bool) (ε := Bool) 1000
        [Event.evAdd 7 (Except.ok true) true, Event.evStart,
         Event.evFire 50])).isActive = false)
    ∧ ((stop (reach (α := Bool) (ε := Bool) 1000
        [Event.evAdd 7 (Except.ok true) true, Event.evStart,
         Event.evFire 50])).lastTaskTimestamp
      = (reach (α := Bool) (ε := Bool) 1000
        [Event.evAdd 7 (Except.ok true) true, Event.evStart,
         Event.evFire 50]).lastTaskTimestamp) :=
  ⟨(claim4_stop_amended (reach (α := Bool) (ε := Bool) 1000
      [Event.evAdd 7 (Except.ok true) true, Event.evStart,
       Event.evFire 50])).2.1 (by decide),
   ((claim4_stop_amended (reach (α := Bool) (ε := Bool) 1000
      [Event.evAdd 7 (Except.ok true) true, Event.evStart,
       Event.evFire 50])).2.2.2 (by decide) (by decide)).1⟩

/-- C7: `remove` removes exactly the entries whose stored task is
reference-identical to the argument, returns the number removed (0 on an
empty queue), keeps the remaining entries in their original relative order
(the surviving list is a sublist of the original), leaves the settlement
and execution traces untouched (so the handles of removed entries are not
settled by the removal), and no matching entry survives. -/
theorem claim7_remove_matching (s : Sys α ε) (tid : Nat) :
    (removeTask s tid).2 = s.tasks.countP (fun e => e.taskId = tid)
    ∧ (removeTask s tid).1.tasks = s.tasks.filter (fun e => e.taskId ≠ tid)
    ∧ List.Sublist (removeTask s tid).1.tasks s.tasks
    ∧ (removeTask s tid).1.settlements = s.settlements
    ∧ (removeTask s tid).1.executions = s.executions
    ∧ (s.tasks = [] → (removeTask s tid).2 = 0)
    ∧ (∀ e : TaskEntry α ε, e.taskId = tid → e ∉ (removeTask s tid).1.tasks) := by
  unfold removeTask
  split
  · next hemp =>
    have h0 : s.tasks = [] := by simpa using hemp
    refine ⟨by simp [h0], by simp [h0], by simp [h0], rfl, rfl, fun _ => rfl, ?_⟩
    intro e _
    simp [h0]
  · rw [removeScan_spec]
    refine ⟨rfl, rfl, ?_, rfl, rfl, fun h0 => by simp [h0], ?_⟩
    · exact List.filter_sublist s.tasks
    · intro e he
      simp [List.mem_filter]
      intro _
      exact he

/-- Witness for C7 on a stopped queue holding task 5 three times around a
task 6: removing task 5 deletes exactly the three matching entries, keeps
the other, returns 3, and settles nothing. -/
theorem claim7_remove_matching_witness :
    (removeTask
        (⟨[⟨0, 5, Except.ok true⟩, ⟨1, 6, Except.ok false⟩, ⟨2, 5, Except.ok true⟩,
           ⟨3, 5, Except.error true⟩], false, 1000, none, none, 0, 0, 0, 4, [], [], none⟩
          : Sys Bool Bool) 5).2
      = ([⟨0, 5, Except.ok true⟩, ⟨1, 6, Except.ok false⟩, ⟨2, 5, Except.ok true⟩,
           ⟨3, 5, Except.error true⟩] : List (TaskEntry Bool Bool)).countP
          (fun e => e.taskId = 5)
    ∧ (removeTask
        (⟨[⟨0, 5, Except.ok true⟩, ⟨1, 6, Except.ok false⟩, ⟨2, 5, Except.ok true⟩,
           ⟨3, 5, Except.error true⟩], false, 1000, none, none, 0, 0, 0, 4, [], [], none⟩
          : Sys Bool Bool) 5).1.settlements = []
    ∧ ((⟨0, 5, Except.ok true⟩ : TaskEntry Bool Bool) ∉
          (removeTask
            (⟨[⟨0, 5, Except.ok true⟩, ⟨1, 6, Except.ok false⟩, ⟨2, 5, Except.ok true⟩,
               ⟨3, 5, Except.error true⟩], false, 1000, none, none, 0, 0, 0, 4, [], [], none⟩
              : Sys Bool Bool) 5).1.tasks) :=
  ⟨(claim7_remove_matching
      (⟨[⟨0, 5, Except.ok true⟩, ⟨1, 6, Except.ok false⟩, ⟨2, 5, Except.ok true⟩,
         ⟨3, 5, Except.error true⟩], false, 1000, none, none, 0, 0, 0, 4, [], [], none⟩
        : Sys Bool Bool) 5).1,
   (claim7_remove_matching
      (⟨[⟨0, 5, Except.ok true⟩, ⟨1, 6, Except.ok false⟩, ⟨2, 5, Except.ok true⟩,
         ⟨3, 5, Except.error true⟩], false, 1000, none, none, 0, 0, 0, 4, [], [], none⟩
        : Sys Bool Bool) 5).2.2.2.1,
   (claim7_remove_matching
      (⟨[⟨0, 5, Except.ok true⟩, ⟨1, 6, Except.ok false⟩, ⟨2, 5, Except.ok true⟩,
         ⟨3, 5, Except.error true⟩], false, 1000, none, none, 0, 0, 0, 4, [], [], none⟩
        : Sys Bool Bool) 5).2.2.2.2.2.2 ⟨0, 5, Except.ok true⟩ rfl⟩

/-- C8: `add` with the append flag always pushes the new entry at the
tail; with the prepend flag it unshifts at the head, except on an empty
queue, where prepending behaves exactly like appending (the first task
becomes the head either way); `append` and `prepend` are definitionally
`add` with the flag true resp. false. -/
theorem claim8_add_positions (s : Sys α ε) (tid : Nat) (r : Except ε α) :
    (add s tid r true).tasks = s.tasks ++ [newEntry s tid r]
    ∧ (s.tasks = [] → (add s tid r false).tasks = s.tasks ++ [newEntry s tid r]
        ∧ (add s tid r false).tasks = (add s tid r true).tasks)
    ∧ (s.tasks ≠ [] → (add s tid r false).tasks = newEntry s tid r :: s.tasks)
    ∧ appendTask s tid r = add s tid r true
    ∧ prependTask s tid r = add s tid r false := by
  have htrue : (add s tid r true).tasks = s.tasks ++ [newEntry s tid r] := by
    unfold add
    rw [(uts_keeps _).1]
    simp
  refine ⟨htrue, ?_, ?_, rfl, rfl⟩
  · intro h0
    constructor
    · unfold add
      rw [(uts_keeps _).1]
      simp [h0]
    · unfold add
      rw [(uts_keeps _).1, (uts_keeps _).1]
      simp [h0]
  · intro hne
    unfold add
    rw [(uts_keeps _).1]
    have hf : s.tasks.isEmpty = false := by simpa using hne
    simp [hf]

/-- Witness for C8: on an empty stopped queue, prepend equals append and
both put the single new entry in the list; on a one-entry queue prepend
unshifts to the head. -/
theorem claim8_add_positions_witness :
    (add (init 1000 : Sys Bool Bool) 7 (Except.ok true) true).tasks
      = (init 1000 : Sys Bool Bool).tasks ++ [newEntry (init 1000) 7 (Except.ok true)]
    ∧ (add (init 1000 : Sys Bool Bool) 7 (Except.ok true) false).tasks
      = (add (init 1000 : Sys Bool Bool) 7 (Except.ok true) true).tasks
    ∧ (add
        (⟨[⟨0, 7, Except.ok true⟩], false, 1000, none, none, 0, 0, 0, 1, [], [], none⟩
          : Sys Bool Bool) 8 (Except.ok false) false).tasks
      = newEntry
          (⟨[⟨0, 7, Except.ok true⟩], false, 1000, none, none, 0, 0, 0, 1, [], [], none⟩
            : Sys Bool Bool) 8 (Except.ok false)
        :: (⟨[⟨0, 7, Except.ok true⟩], false, 1000, none, none, 0, 0, 0, 1, [], [], none⟩
          : Sys Bool Bool).tasks :=
  ⟨(claim8_add_positions (init 1000 : Sys Bool Bool) 7 (Except.ok true)).1,
   ((claim8_add_positions (init 1000 : Sys Bool Bool) 7 (Except.ok true)).2.1 rfl).2,
   (claim8_add_positions
      (⟨[⟨0, 7, Except.ok true⟩], false, 1000, none, none, 0, 0, 0, 1, [], [], none⟩
        : Sys Bool Bool) 8 (Except.ok false)).2.2.1 (by decide)⟩

/-- C9: the constructor stores the defaulted rate (1 when the argument is
unspecified) and initialises empty entries, inactive state, null timestamp
and null handle; but `jobIntervalMillis` is computed from the raw
parameter, not the stored rate, so the no-argument construction yields
`1000 / undefined = NaN` (embedded as `none`) instead of the documented
1000 — while any explicitly given rate `r` does yield `1000 / r`. -/
theorem claim9_ctor_interval :
    (construct (α := Bool) (ε := Bool) none).maxCallsPerSecond = 1
    ∧ (construct (α := Bool) (ε := Bool) none).jobIntervalMillis = none
    ∧ (∀ r : ℚ, (construct (α := Bool) (ε := Bool) (some r)).maxCallsPerSecond = r)
    ∧ (∀ r : ℚ, (construct (α := Bool) (ε := Bool) (some r)).jobIntervalMillis
        = some (1000 / r))
    ∧ (construct (α := Bool) (ε := Bool) (some 5)).jobIntervalMillis = some 200
    ∧ (construct (α := Bool) (ε := Bool) none).tasks = []
    ∧ (construct (α := Bool) (ε := Bool) none).isActive = false
    ∧ (construct (α := Bool) (ε := Bool) none).lastTaskTimestamp = none
    ∧ (construct (α := Bool) (ε := Bool) none).currentTaskTimeoutId = none := by
  refine ⟨rfl, rfl, fun r => rfl, fun r => rfl, ?_, rfl, rfl, rfl, rfl⟩
  show some ((1000 : ℚ) / 5) = some 200
  norm_num

/-- C10: a timer firing while the task list is empty executes nothing,
settles nothing, raises nothing (the embedded callback is total), keeps
the list empty, and just clears the timer bookkeeping — the shift from the
empty sequence is guarded and is a no-op. -/
theorem claim10_fire_on_empty (s : Sys α ε) (t : ℤ)
    (h1 : s.tasks = []) (h2 : s.outstanding ≠ 0) :
    (step s (Event.evFire t)).executions = s.executions
    ∧ (step s (Event.evFire t)).settlements = s.settlements
    ∧ (step s (Event.evFire t)).tasks = []
    ∧ (step s (Event.evFire t)).currentTaskTimeoutId = none
    ∧ (step s (Event.evFire t)).armedWait = none
    ∧ (step s (Event.evFire t)).outstanding = s.outstanding - 1 := by
  have hstep : step s (Event.evFire t) = fireTimer s t := by
    simp [step, h2]
  rw [hstep]
  unfold fireTimer processNextTask scheduleNext
  simp [h1]

/-- Witness for C10 at the reachable state where the queued task is
removed after the start-up timer was armed: the firing against the emptied
queue leaves the traces empty, the list empty, and clears the handle. -/
theorem claim10_fire_on_empty_witness :
    (step (reach (α := Bool) (ε := Bool) 1000
        [Event.evAdd 7 (Except.ok true) true, Event.evStart, Event.evRemove 7])
        (Event.evFire 99)).executions
      = (reach (α := Bool) (ε := Bool) 1000
        [Event.evAdd 7 (Except.ok true) true, Event.evStart, Event.evRemove 7]).executions
    ∧ (step (reach (α := Bool) (ε := Bool) 1000
        [Event.evAdd 7 (Except.ok true) true, Event.evStart, Event.evRemove 7])
        (Event.evFire 99)).settlements
      = (reach (α := Bool) (ε := Bool) 1000
        [Event.evAdd 7 (Except.ok true) true, Event.evStart, Event.evRemove 7]).settlements
    ∧ (step (reach (α := Bool) (ε := Bool) 1000
        [Event.evAdd 7 (Except.ok true) true, Event.evStart, Event.evRemove 7])
        (Event.evFire 99)).tasks = []
    ∧ (step (reach (α := Bool) (ε := Bool) 1000
        [Event.evAdd 7 (Except.ok true) true, Event.evStart, Event.evRemove 7])
        (Event.evFire 99)).currentTaskTimeoutId = none
    ∧ (step (reach (α := Bool) (ε := Bool) 1000
        [Event.evAdd 7 (Except.ok true) true, Event.evStart, Event.evRemove 7])
        (Event.evFire 99)).armedWait = none
    ∧ (step (reach (α := Bool) (ε := Bool) 1000
        [Event.evAdd 7 (Except.ok true) true, Event.evStart, Event.evRemove 7])
        (Event.evFire 99)).outstanding
      = (reach (α := Bool) (ε := Bool) 1000
        [Event.evAdd 7 (Except.ok true) true, Event.evStart, Event.evRemove 7]).outstanding - 1 :=
  claim10_fire_on_empty
    (reach (α := Bool) (ε := Bool) 1000
      [Event.evAdd 7 (Except.ok true) true, Event.evStart, Event.evRemove 7])
    99 (by decide) (by decide)

end PromiseQueue
